import Mathlib

/-!
Verification of the Tempomat cruise-control simulator.

The Python source (car_plant.py, pid_controller.py, fuzzy_controller.py,
simulation.py) is shallowly embedded over `ℚ`: Python floats become exact
rationals, mutable object state becomes explicit state passing, and
`np.clip` becomes `npClip`.  A second definition `specClamp` follows the
specification's wording of clamping so that refinement between the two can
be stated.
-/

namespace Tempomat

/-! ## Definitions -/

/-- Semantics of numpy's clip: `minimum(maximum(x, lo), hi)`. -/
def npClip (x lo hi : ℚ) : ℚ := min (max x lo) hi

/-- Clamp as the specification words it: values below `lo` are replaced by
`lo`, values above `hi` by `hi`, everything else is unchanged. -/
def specClamp (x lo hi : ℚ) : ℚ := if x < lo then lo else if hi < x then hi else x

/-- Parameters of the PID controller (`PIDParams` dataclass). -/
structure PIDParams where
  Kp : ℚ
  Ki : ℚ
  Kd : ℚ
  u_min : ℚ
  u_max : ℚ
deriving DecidableEq

/-- Default PID parameters (`Kp=0.8, Ki=0.4, Kd=0.05, u_min=0, u_max=1`). -/
def defaultPIDParams : PIDParams :=
  { Kp := 4/5, Ki := 2/5, Kd := 1/20, u_min := 0, u_max := 1 }

/-- Mutable state of a `PIDController` object: `integral` and `e_prev`. -/
structure PIDState where
  integral : ℚ
  e_prev : ℚ
deriving DecidableEq

/-- `PIDController.reset`: zeroes `integral` and `e_prev`. -/
def pidReset (_s : PIDState) : PIDState := { integral := 0, e_prev := 0 }

/-- `PIDController.step(e, dt)`: returns the control signal and the updated
state.  Mirrors the Python body line by line: the integral accumulates
`e*dt` and is clipped to `[-100, 100]`; the derivative is
`(e - e_prev)/dt` when `dt > 0` and `0` otherwise; `e_prev` becomes `e`;
the output `Kp*e + Ki*integral + Kd*de` is clipped to `[u_min, u_max]`. -/
def pidStep (p : PIDParams) (s : PIDState) (e dt : ℚ) : ℚ × PIDState :=
  let integral := npClip (s.integral + e * dt) (-100) 100
  let de := if 0 < dt then (e - s.e_prev) / dt else 0
  let u := npClip (p.Kp * e + p.Ki * integral + p.Kd * de) p.u_min p.u_max
  (u, { integral := integral, e_prev := e })

/-- `VehicleParams` dataclass: mass, maximal tractive force, drag
coefficient and a descriptive name. -/
structure VehicleParams where
  mass : ℚ
  F_max : ℚ
  c_r : ℚ
  name : String
deriving DecidableEq

/-- Parameters built by `FerrariCar.__init__`. -/
def ferrariParams : VehicleParams :=
  { mass := 1400, F_max := 7000, c_r := 40, name := "Ferrari" }

/-- Parameters built by `Motorcycle.__init__`. -/
def motorcycleParams : VehicleParams :=
  { mass := 250, F_max := 3000, c_r := 30, name := "Motocykl" }

/-- Parameters built by `TankCar.__init__`. -/
def tankParams : VehicleParams :=
  { mass := 30000, F_max := 15000, c_r := 200, name := "Czołg" }

/-- `CarPlant.reset(v0)`: the stored speed becomes `v0`. -/
def carReset (v0 : ℚ) : ℚ := v0

/-- `CarPlant.step(u, dt)`: clips the control to `[0,1]`, computes traction
`u*F_max`, linear drag `c_r*v`, acceleration `(F_tr - F_res)/mass`, one
forward-Euler step `v + a*dt`, floors the result at `0`, stores it and
returns it (returned value, new stored speed). -/
def carStep (p : VehicleParams) (v u dt : ℚ) : ℚ × ℚ :=
  let u1 := npClip u 0 1
  let F_tr := u1 * p.F_max
  let F_res := p.c_r * v
  let a := (F_tr - F_res) / p.mass
  let v1 := v + a * dt
  let v2 := if v1 < 0 then 0 else v1
  (v2, v2)

/-- One recorded operation on a `CarPlant` object, for stating the
speed invariant over arbitrary call sequences. -/
inductive PlantOp
  | reset (v0 : ℚ)
  | step (u dt : ℚ)
deriving DecidableEq

/-- Effect of one plant method call on the stored speed. -/
def applyOp (p : VehicleParams) (v : ℚ) : PlantOp → ℚ
  | .reset v0 => carReset v0
  | .step u dt => (carStep p v u dt).2

/-- Stored speed after running a call sequence on a freshly constructed
plant (`CarPlant.__init__` sets `v = 0`). -/
def runOps (p : VehicleParams) (ops : List PlantOp) : ℚ :=
  ops.foldl (applyOp p) 0

/-- Python's `str.lower` restricted to the alphabet that the vehicle
factory compares against: ASCII letters plus the Polish `Ł`. -/
def pyLowerChar (ch : Char) : Char :=
  if 'A' ≤ ch ∧ ch ≤ 'Z' then Char.ofNat (ch.toNat + 32)
  else if ch = 'Ł' then 'ł'
  else ch

/-- `model_name.lower()` as used by `create_vehicle`. -/
def pyLower (s : String) : String := String.mk (s.data.map pyLowerChar)

/-- `create_vehicle(model_name)` from car_plant.py: lowercases the name,
matches the known aliases and falls back to the Ferrari preset. -/
def create_vehicle (model_name : String) : VehicleParams :=
  let name := pyLower model_name
  if name = "ferrari" then ferrariParams
  else if name = "motorcycle" ∨ name = "motocykl" then motorcycleParams
  else if name = "tank" ∨ name = "czolg" ∨ name = "czołg" then tankParams
  else ferrariParams

/-- `triangular_mf(x, a, b, c)` from fuzzy_controller.py, translated branch
by branch: degenerate triangles (`a = b = c`) are `1` exactly at `a`;
otherwise `0` at and outside the endpoints, `1` at the peak, and the two
linear ramps in between. -/
def triangular_mf (x a b c : ℚ) : ℚ :=
  if a = b ∧ b = c then (if x = a then 1 else 0)
  else if x ≤ a ∨ c ≤ x then 0
  else if x = b then 1
  else if x < b then (x - a) / (b - a)
  else (c - x) / (c - b)

/-- `np.linspace(a, b, n)`: `n` evenly spaced points from `a` to `b`
inclusive; one point is `[a]`, zero points is the empty list. -/
def linspace (a b : ℚ) (n : ℕ) : List ℚ :=
  if n ≤ 1 then List.replicate n a
  else (List.range n).map (fun (i : ℕ) => a + (b - a) * (i : ℚ) / ((n : ℚ) - 1))

/-- `FuzzyParams` dataclass; the Python range pairs are flattened into
their two endpoints. -/
structure FuzzyParams where
  e_min : ℚ
  e_max : ℚ
  de_min : ℚ
  de_max : ℚ
  u_min : ℚ
  u_max : ℚ
  resolution : ℕ
deriving DecidableEq

/-- Default fuzzy parameters: `e_range=(-10,10)`, `de_range=(-3,3)`,
`u_range=(0,1)`, `resolution=101`. -/
def defaultFuzzyParams : FuzzyParams :=
  { e_min := -10, e_max := 10, de_min := -3, de_max := 3,
    u_min := 0, u_max := 1, resolution := 101 }

/-- A fuzzy configuration whose output range does not contain `0`:
the default parameters with `u_range=(1/2, 1)`. -/
def shiftedFuzzyParams : FuzzyParams :=
  { e_min := -10, e_max := 10, de_min := -3, de_max := 3,
    u_min := 1/2, u_max := 1, resolution := 101 }

/-- Linguistic terms of the two inputs: NB, NS, Z, PS, PB. -/
inductive InLabel
  | NB
  | NS
  | Z
  | PS
  | PB
deriving DecidableEq

/-- Linguistic terms of the output: Z, S, M, B. -/
inductive OutLabel
  | Z
  | S
  | M
  | B
deriving DecidableEq

/-- Centers of the error terms in `_e_terms`. -/
def eCenter (p : FuzzyParams) : InLabel → ℚ
  | .NB => p.e_min
  | .NS => p.e_min / 2
  | .Z => 0
  | .PS => p.e_max / 2
  | .PB => p.e_max

/-- `_e_terms`: membership of `e` in one error term, triangle of
half-width `(e_max - e_min)/4` around the center. -/
def eTerm (p : FuzzyParams) (e : ℚ) (lab : InLabel) : ℚ :=
  let width := (p.e_max - p.e_min) / 4
  let c := eCenter p lab
  triangular_mf e (c - width) c (c + width)

/-- Centers of the error-derivative terms in `_de_terms`. -/
def deCenter (p : FuzzyParams) : InLabel → ℚ
  | .NB => p.de_min
  | .NS => p.de_min / 2
  | .Z => 0
  | .PS => p.de_max / 2
  | .PB => p.de_max

/-- `_de_terms`: membership of `de` in one derivative term. -/
def deTerm (p : FuzzyParams) (de : ℚ) (lab : InLabel) : ℚ :=
  let width := (p.de_max - p.de_min) / 4
  let c := deCenter p lab
  triangular_mf de (c - width) c (c + width)

/-- Centers of the output terms in `_u_mf`. -/
def uCenter (p : FuzzyParams) : OutLabel → ℚ
  | .Z => p.u_min
  | .S => p.u_min + (p.u_max - p.u_min) / 4
  | .M => p.u_min + 2 * ((p.u_max - p.u_min) / 4)
  | .B => p.u_max

/-- `_u_mf(label, u)`: membership of `u` in one output term. -/
def uMF (p : FuzzyParams) (lab : OutLabel) (u : ℚ) : ℚ :=
  let width := (p.u_max - p.u_min) / 4
  let c := uCenter p lab
  triangular_mf u (c - width) c (c + width)

/-- The fixed 5×5 rule base of `FuzzyCruiseController.step`, in source
order: `((e_label, de_label), u_label)`. -/
def ruleList : List ((InLabel × InLabel) × OutLabel) :=
  [((.PB, .NB), .M), ((.PB, .NS), .B), ((.PB, .Z), .B), ((.PB, .PS), .B), ((.PB, .PB), .M),
   ((.PS, .NB), .S), ((.PS, .NS), .M), ((.PS, .Z), .M), ((.PS, .PS), .B), ((.PS, .PB), .M),
   ((.Z, .NB), .Z), ((.Z, .NS), .S), ((.Z, .Z), .M), ((.Z, .PS), .S), ((.Z, .PB), .Z),
   ((.NS, .NB), .Z), ((.NS, .NS), .Z), ((.NS, .Z), .S), ((.NS, .PS), .S), ((.NS, .PB), .Z),
   ((.NB, .NB), .Z), ((.NB, .NS), .Z), ((.NB, .Z), .Z), ((.NB, .PS), .Z), ((.NB, .PB), .Z)]

/-- Rule aggregation loop: starting from all-zero `mu_out`, every rule
raises its output label's strength to the max of the old value and the
rule's firing strength `min(e_term, de_term)`. -/
def muOut (p : FuzzyParams) (e de : ℚ) : OutLabel → ℚ :=
  ruleList.foldl
    (fun μ r =>
      Function.update μ r.2 (max (μ r.2) (min (eTerm p e r.1.1) (deTerm p de r.1.2))))
    (fun _ => 0)

/-- Iteration order of the `mu_out` dictionary: insertion order Z, S, M, B. -/
def outLabels : List OutLabel := [.Z, .S, .M, .B]

/-- Aggregated output membership at one sample point `u`: max over the
labels with positive strength of `min(strength, _u_mf(label, u))`. -/
def muAt (p : FuzzyParams) (μ : OutLabel → ℚ) (u : ℚ) : ℚ :=
  outLabels.foldl
    (fun m lab => if 0 < μ lab then max m (min (μ lab) (uMF p lab u)) else m) 0

/-- The output universe `np.linspace(u_min, u_max, resolution)`. -/
def uUniverse (p : FuzzyParams) : List ℚ := linspace p.u_min p.u_max p.resolution

/-- Numerator of the centroid: `num += u * mu` over the universe. -/
def defuzzNum (p : FuzzyParams) (μ : OutLabel → ℚ) : ℚ :=
  (uUniverse p).foldl (fun acc u => acc + u * muAt p μ u) 0

/-- Denominator of the centroid: `den += mu` over the universe. -/
def defuzzDen (p : FuzzyParams) (μ : OutLabel → ℚ) : ℚ :=
  (uUniverse p).foldl (fun acc u => acc + muAt p μ u) 0

/-- The finite-difference derivative used by `FuzzyCruiseController.step`:
`(e - e_prev)/dt` when `dt > 0`, else `0`. -/
def fuzzyDe (e_prev e dt : ℚ) : ℚ := if 0 < dt then (e - e_prev) / dt else 0

/-- The denominator that `step(e, dt)` computes from state `e_prev`. -/
def fuzzyDen (p : FuzzyParams) (e_prev e dt : ℚ) : ℚ :=
  defuzzDen p (muOut p e (fuzzyDe e_prev e dt))

/-- `FuzzyCruiseController.step(e, dt)` from state `e_prev`: returns the
control value and the new state (`e_prev` becomes `e`).  When `den == 0`
it returns the fallback `0`, otherwise the centroid `num/den`. -/
def fuzzyStep (p : FuzzyParams) (e_prev e dt : ℚ) : ℚ × ℚ :=
  let de := fuzzyDe e_prev e dt
  let μ := muOut p e de
  let num := defuzzNum p μ
  let den := defuzzDen p μ
  if den = 0 then (0, e) else (num / den, e)

/-- `FuzzyCruiseController.reset`: clears `e_prev` to `0`. -/
def fuzzyReset (_s : ℚ) : ℚ := 0

/-- The duck-typed controller capability used by `simulate`: a state type
with `reset()` and `step(error, dt)` returning the control output and the
updated state. -/
structure Controller where
  St : Type
  reset : St → St
  step : St → ℚ → ℚ → ℚ × St

/-- A `PIDController` object with fixed parameters, as a `Controller`. -/
def pidController (p : PIDParams) : Controller :=
  { St := PIDState, reset := pidReset, step := pidStep p }

/-- A `FuzzyCruiseController` object with fixed parameters, as a
`Controller`. -/
def fuzzyController (p : FuzzyParams) : Controller :=
  { St := ℚ, reset := fuzzyReset, step := fuzzyStep p }

/-- `simulate(vehicle, controller, v_set, t_sim, dt)` from simulation.py.
`vInit` and `cs` are the states the two objects carry when the call is
made; the function resets both before looping.  `steps = int(t_sim/dt)`
is modelled as `⌊t_sim/dt⌋.toNat`, which agrees with Python's `int()`
truncation for the nonnegative horizons on which numpy's array
allocations succeed.  Returns
`(t_arr, v_arr, u_arr, v_set_arr, final plant speed, final controller
state)`. -/
def simulate (p : VehicleParams) (C : Controller) (cs : C.St) (vInit : ℚ)
    (v_set t_sim dt : ℚ) :
    List ℚ × List ℚ × List ℚ × List ℚ × ℚ × C.St :=
  let v0 := carReset 0
  let cs0 := C.reset cs
  let steps := (⌊t_sim / dt⌋).toNat
  let t_arr := linspace 0 t_sim steps
  let v_set_arr := List.replicate steps v_set
  let final := (List.range steps).foldl
    (fun (st : (ℚ × C.St) × List ℚ × List ℚ) _ =>
      (((carStep p st.1.1 (C.step st.1.2 (v_set - st.1.1) dt).1 dt).2,
        (C.step st.1.2 (v_set - st.1.1) dt).2),
       st.2.1 ++ [(carStep p st.1.1 (C.step st.1.2 (v_set - st.1.1) dt).1 dt).1],
       st.2.2 ++ [(C.step st.1.2 (v_set - st.1.1) dt).1]))
    ((v0, cs0), [], [])
  (t_arr, final.2.1, final.2.2, v_set_arr, final.1.1, final.1.2)

/-- Plant speed and controller state of the simulation loop after `n`
steps, starting from the freshly reset pair. -/
def simState (p : VehicleParams) (C : Controller) (cs : C.St) (v_set dt : ℚ) :
    ℕ → ℚ × C.St
  | 0 => (carReset 0, C.reset cs)
  | n + 1 =>
    ((carStep p (simState p C cs v_set dt n).1
        (C.step (simState p C cs v_set dt n).2
          (v_set - (simState p C cs v_set dt n).1) dt).1 dt).2,
     (C.step (simState p C cs v_set dt n).2
       (v_set - (simState p C cs v_set dt n).1) dt).2)

/-- Control output recorded by the simulation loop at step `n`. -/
def simU (p : VehicleParams) (C : Controller) (cs : C.St) (v_set dt : ℚ)
    (n : ℕ) : ℚ :=
  (C.step (simState p C cs v_set dt n).2
    (v_set - (simState p C cs v_set dt n).1) dt).1

/-! ## Theorems -/

theorem npClip_eq_specClamp (x lo hi : ℚ) (h : lo ≤ hi) :
    npClip x lo hi = specClamp x lo hi := by
  unfold npClip specClamp
  split_ifs with h1 h2
  · rw [max_eq_right h1.le]
    exact min_eq_left h
  · rw [max_eq_left (not_lt.mp h1)]
    exact min_eq_right h2.le
  · rw [max_eq_left (not_lt.mp h1)]
    exact min_eq_left (not_lt.mp h2)

theorem ite_neg_zero_eq_max (x : ℚ) : (if x < 0 then (0:ℚ) else x) = max 0 x := by
  split_ifs with h
  · exact (max_eq_left h.le).symm
  · exact (max_eq_right (not_lt.mp h)).symm

/-- C1: `PIDController.step(e, dt)` updates the integral to
`clamp(i + e*dt, -100, 100)`, uses derivative `(e - e_prev)/dt` when
`dt > 0` and `0` otherwise, stores `e` as the new previous error on every
call, and returns `clamp(Kp*e + Ki*i' + Kd*de, u_min, u_max)`. -/
theorem pid_step_follows_spec (p : PIDParams) (s : PIDState) (e dt : ℚ)
    (hlim : p.u_min ≤ p.u_max) :
    pidStep p s e dt =
      (specClamp (p.Kp * e + p.Ki * specClamp (s.integral + e * dt) (-100) 100
          + p.Kd * (if 0 < dt then (e - s.e_prev) / dt else 0)) p.u_min p.u_max,
       { integral := specClamp (s.integral + e * dt) (-100) 100, e_prev := e }) := by
  show (npClip _ p.u_min p.u_max, PIDState.mk (npClip _ (-100) 100) e) = _
  rw [npClip_eq_specClamp _ _ _ (by norm_num : (-100:ℚ) ≤ 100),
      npClip_eq_specClamp _ _ _ hlim]

/-- Witness for C1 at the default gains, zero state, `e = 1`, `dt = 1/20`. -/
theorem pid_step_follows_spec_witness :
    defaultPIDParams.u_min ≤ defaultPIDParams.u_max ∧
    pidStep defaultPIDParams { integral := 0, e_prev := 0 } 1 (1/20) =
      (specClamp (defaultPIDParams.Kp * 1 +
          defaultPIDParams.Ki * specClamp (0 + 1 * (1/20)) (-100) 100 +
          defaultPIDParams.Kd * (if 0 < (1/20 : ℚ) then (1 - 0) / (1/20) else 0))
          defaultPIDParams.u_min defaultPIDParams.u_max,
       { integral := specClamp (0 + 1 * (1/20)) (-100) 100, e_prev := 1 }) :=
  ⟨by norm_num [defaultPIDParams],
   pid_step_follows_spec defaultPIDParams { integral := 0, e_prev := 0 } 1 (1/20)
     (by norm_num [defaultPIDParams])⟩

/-- C2: `CarPlant.step(u, dt)` stores and returns
`max(0, v + ((clamp(u,0,1)*F_max - c_r*v)/mass)*dt)`. -/
theorem car_step_follows_spec (p : VehicleParams) (v u dt : ℚ)
    (hm : 0 < p.mass) (hF : 0 < p.F_max) (hc : 0 ≤ p.c_r) (hdt : 0 < dt) :
    carStep p v u dt =
      (max 0 (v + ((specClamp u 0 1 * p.F_max - p.c_r * v) / p.mass) * dt),
       max 0 (v + ((specClamp u 0 1 * p.F_max - p.c_r * v) / p.mass) * dt)) := by
  show (if _ < (0:ℚ) then (0:ℚ) else _, if _ < (0:ℚ) then (0:ℚ) else _) = _
  rw [ite_neg_zero_eq_max, npClip_eq_specClamp _ _ _ (by norm_num : (0:ℚ) ≤ 1)]

/-- Witness for C2 on the Ferrari preset at `v = 10`, `u = 2`, `dt = 1/20`. -/
theorem car_step_follows_spec_witness :
    0 < ferrariParams.mass ∧ 0 < ferrariParams.F_max ∧ 0 ≤ ferrariParams.c_r ∧
    0 < (1/20 : ℚ) ∧
    carStep ferrariParams 10 2 (1/20) =
      (max 0 (10 + ((specClamp 2 0 1 * ferrariParams.F_max - ferrariParams.c_r * 10)
          / ferrariParams.mass) * (1/20)),
       max 0 (10 + ((specClamp 2 0 1 * ferrariParams.F_max - ferrariParams.c_r * 10)
          / ferrariParams.mass) * (1/20))) :=
  ⟨by norm_num [ferrariParams], by norm_num [ferrariParams], by norm_num [ferrariParams],
   by norm_num,
   car_step_follows_spec ferrariParams 10 2 (1/20) (by norm_num [ferrariParams])
     (by norm_num [ferrariParams]) (by norm_num [ferrariParams]) (by norm_num)⟩

/-- C4: for `a < b < c` the triangular membership function is exactly `1`
at the peak, exactly `0` at and beyond both endpoints, and the two linear
ramps strictly between them; a degenerate triple `a = b = c` gives `1` at
that point and `0` elsewhere. -/
theorem triangular_mf_follows_spec (a b c : ℚ) (hab : a < b) (hbc : b < c) :
    triangular_mf b a b c = 1 ∧
    (∀ x, x ≤ a → triangular_mf x a b c = 0) ∧
    (∀ x, c ≤ x → triangular_mf x a b c = 0) ∧
    (∀ x, a < x → x < b → triangular_mf x a b c = (x - a) / (b - a)) ∧
    (∀ x, b < x → x < c → triangular_mf x a b c = (c - x) / (c - b)) ∧
    (∀ p x, triangular_mf x p p p = if x = p then 1 else 0) := by
  have hne : ¬(a = b ∧ b = c) := fun h => absurd h.1 hab.ne
  refine ⟨?_, ?_, ?_, ?_, ?_, ?_⟩
  · unfold triangular_mf
    rw [if_neg hne, if_neg (by push_neg; exact ⟨hab, hbc⟩),
        if_pos rfl]
  · intro x hx
    unfold triangular_mf
    rw [if_neg hne, if_pos (Or.inl hx)]
  · intro x hx
    unfold triangular_mf
    rw [if_neg hne, if_pos (Or.inr hx)]
  · intro x hax hxb
    unfold triangular_mf
    rw [if_neg hne,
        if_neg (by push_neg; exact ⟨hax, hxb.trans hbc⟩),
        if_neg hxb.ne, if_pos hxb]
  · intro x hbx hxc
    unfold triangular_mf
    rw [if_neg hne,
        if_neg (by push_neg; exact ⟨hab.trans hbx, hxc⟩),
        if_neg hbx.ne', if_neg (not_lt.mpr hbx.le)]
  · intro p x
    unfold triangular_mf
    rw [if_pos ⟨rfl, rfl⟩]

/-- Witness for C4 at the triangle `(-5, 0, 5)`. -/
theorem triangular_mf_follows_spec_witness :
    (-5 : ℚ) < 0 ∧ (0 : ℚ) < 5 ∧
    (triangular_mf 0 (-5) 0 5 = 1 ∧
     (∀ x, x ≤ -5 → triangular_mf x (-5) 0 5 = 0) ∧
     (∀ x, (5:ℚ) ≤ x → triangular_mf x (-5) 0 5 = 0) ∧
     (∀ x, -5 < x → x < 0 → triangular_mf x (-5) 0 5 = (x - -5) / (0 - -5)) ∧
     (∀ x, 0 < x → x < 5 → triangular_mf x (-5) 0 5 = (5 - x) / (5 - 0)) ∧
     (∀ p x, triangular_mf x p p p = if x = p then 1 else 0)) :=
  ⟨by norm_num, by norm_num,
   triangular_mf_follows_spec (-5) 0 5 (by norm_num) (by norm_num)⟩

theorem triangular_mf_nonneg (x a b c : ℚ) : 0 ≤ triangular_mf x a b c := by
  unfold triangular_mf
  split_ifs with h1 h2 h3 h4 h5
  · norm_num
  · norm_num
  · norm_num
  · norm_num
  · push_neg at h3
    exact div_nonneg (by linarith [h3.1]) (by linarith [h3.1])
  · push_neg at h3
    have hbx : b < x := lt_of_le_of_ne (not_lt.mp h5) (Ne.symm h4)
    exact div_nonneg (by linarith [h3.2]) (by linarith [h3.2])

theorem deTerm_nonneg (p : FuzzyParams) (de : ℚ) (lab : InLabel) :
    0 ≤ deTerm p de lab := triangular_mf_nonneg _ _ _ _

theorem muAt_nonneg (p : FuzzyParams) (μ : OutLabel → ℚ) (u : ℚ) :
    0 ≤ muAt p μ u := by
  unfold muAt
  refine List.foldlRecOn outLabels _ 0 le_rfl ?_
  intro m hm lab _
  dsimp only
  split_ifs with h
  · exact le_trans hm (le_max_left _ _)
  · exact hm

theorem muOut_foldl_zero (p : FuzzyParams) (e de : ℚ)
    (he : ∀ lab, eTerm p e lab = 0) :
    ∀ (rules : List ((InLabel × InLabel) × OutLabel)) (μ0 : OutLabel → ℚ),
      (∀ lab, μ0 lab = 0) →
      ∀ lab, (rules.foldl
        (fun μ r =>
          Function.update μ r.2 (max (μ r.2) (min (eTerm p e r.1.1) (deTerm p de r.1.2))))
        μ0) lab = 0 := by
  intro rules
  induction rules with
  | nil => intro μ0 h0 lab; exact h0 lab
  | cons r rs ih =>
    intro μ0 h0 lab
    rw [List.foldl_cons]
    refine ih _ ?_ lab
    intro lab2
    rw [Function.update_apply]
    split_ifs with hl
    · rw [h0 r.2, he r.1.1, min_eq_left (deTerm_nonneg p de r.1.2), max_self]
    · exact h0 lab2

theorem muOut_eq_zero (p : FuzzyParams) (e de : ℚ)
    (he : ∀ lab, eTerm p e lab = 0) : muOut p e de = fun _ => 0 := by
  funext lab
  exact muOut_foldl_zero p e de he ruleList (fun _ => 0) (fun _ => rfl) lab

theorem muAt_zero_fn (p : FuzzyParams) (u : ℚ) : muAt p (fun _ => 0) u = 0 := by
  simp [muAt, outLabels, List.foldl_cons, List.foldl_nil]

theorem foldl_add_eq (f : ℚ → ℚ) (L : List ℚ) (a : ℚ) :
    L.foldl (fun acc u => acc + f u) a = a + (L.map f).sum := by
  induction L generalizing a with
  | nil => simp
  | cons x xs ih =>
    rw [List.foldl_cons, ih, List.map_cons, List.sum_cons]
    ring

theorem fuzzy_den_no_rule (p : FuzzyParams) (ep e dt : ℚ)
    (he : ∀ lab, eTerm p e lab = 0) : fuzzyDen p ep e dt = 0 := by
  unfold fuzzyDen defuzzDen
  rw [muOut_eq_zero p e _ he, foldl_add_eq]
  have hz : ∀ x ∈ (uUniverse p).map (fun u => muAt p (fun _ => 0) u), x = 0 := by
    intro x hx
    obtain ⟨u, _, rfl⟩ := List.mem_map.mp hx
    exact muAt_zero_fn p u
  rw [List.sum_eq_zero hz, add_zero]

theorem fuzzyStep_of_den_zero (p : FuzzyParams) (ep e dt : ℚ)
    (h : fuzzyDen p ep e dt = 0) : fuzzyStep p ep e dt = (0, e) := by
  have h2 : defuzzDen p (muOut p e (fuzzyDe ep e dt)) = 0 := h
  show (if defuzzDen p (muOut p e (fuzzyDe ep e dt)) = 0
        then ((0:ℚ), e)
        else (defuzzNum p (muOut p e (fuzzyDe ep e dt)) /
              defuzzDen p (muOut p e (fuzzyDe ep e dt)), e)) = (0, e)
  rw [if_pos h2]

theorem eTerm_at_20 (p : FuzzyParams) (h1 : p.e_min = -10) (h2 : p.e_max = 10) :
    ∀ lab, eTerm p 20 lab = 0 := by
  intro lab
  cases lab <;> norm_num [eTerm, eCenter, h1, h2, triangular_mf]

/-- C5: when the aggregated membership summed over the output universe is
exactly zero, `FuzzyCruiseController.step(e, dt)` returns the fallback `0`
and still updates `previousError` to `e`. -/
theorem fuzzy_step_zero_den_returns_zero (p : FuzzyParams) (ep e dt : ℚ)
    (h : fuzzyDen p ep e dt = 0) :
    fuzzyStep p ep e dt = (0, e) :=
  fuzzyStep_of_den_zero p ep e dt h

/-- Witness for C5: with the default parameters and `e = 20` every error
term is zero, so no rule fires, the denominator is zero, and the step
returns `0` while `previousError` becomes `20`. -/
theorem fuzzy_step_zero_den_returns_zero_witness :
    fuzzyDen defaultFuzzyParams 0 20 1 = 0 ∧
    fuzzyStep defaultFuzzyParams 0 20 1 = (0, 20) :=
  ⟨fuzzy_den_no_rule defaultFuzzyParams 0 20 1 (eTerm_at_20 defaultFuzzyParams rfl rfl),
   fuzzy_step_zero_den_returns_zero defaultFuzzyParams 0 20 1
     (fuzzy_den_no_rule defaultFuzzyParams 0 20 1 (eTerm_at_20 defaultFuzzyParams rfl rfl))⟩

/-- Counterexample to C8 as stated: with output range `[1/2, 1]`
(so `u_min ≤ u_max`) and `e = 20`, no rule fires and the step returns the
fallback `0`, which lies outside `[u_min, u_max]`. -/
theorem fuzzy_output_range_counterexample :
    shiftedFuzzyParams.u_min ≤ shiftedFuzzyParams.u_max ∧
    ¬(shiftedFuzzyParams.u_min ≤ (fuzzyStep shiftedFuzzyParams 0 20 1).1 ∧
      (fuzzyStep shiftedFuzzyParams 0 20 1).1 ≤ shiftedFuzzyParams.u_max) := by
  have h : fuzzyStep shiftedFuzzyParams 0 20 1 = (0, 20) :=
    fuzzyStep_of_den_zero _ _ _ _
      (fuzzy_den_no_rule _ _ _ _ (eTerm_at_20 shiftedFuzzyParams rfl rfl))
  constructor
  · norm_num [shiftedFuzzyParams]
  · rw [h]
    norm_num [shiftedFuzzyParams]

theorem linspace_mem (a b : ℚ) (n : ℕ) (hab : a ≤ b) :
    ∀ x ∈ linspace a b n, a ≤ x ∧ x ≤ b := by
  intro x hx
  by_cases h : n ≤ 1
  · rw [linspace, if_pos h] at hx
    rw [List.eq_of_mem_replicate hx]
    exact ⟨le_rfl, hab⟩
  · rw [linspace, if_neg h] at hx
    obtain ⟨i, hi, rfl⟩ := List.mem_map.mp hx
    rw [List.mem_range] at hi
    have hn : 2 ≤ n := by omega
    have hd : (0:ℚ) < (n:ℚ) - 1 := by
      have h2 : (2:ℚ) ≤ (n:ℚ) := by exact_mod_cast hn
      linarith
    have hic : (i:ℚ) ≤ (n:ℚ) - 1 := by
      have hi1 : (i:ℚ) + 1 ≤ (n:ℚ) := by exact_mod_cast hi
      linarith
    have hi0 : (0:ℚ) ≤ (i:ℚ) := Nat.cast_nonneg i
    constructor
    · have hnn : 0 ≤ (b - a) * (i:ℚ) / ((n:ℚ) - 1) :=
        div_nonneg (mul_nonneg (by linarith) hi0) hd.le
      linarith
    · have hle : (b - a) * (i:ℚ) / ((n:ℚ) - 1) ≤ b - a := by
        rw [div_le_iff₀ hd]
        exact mul_le_mul_of_nonneg_left hic (by linarith)
      linarith

theorem defuzz_num_den_bounds (p : FuzzyParams) (μ : OutLabel → ℚ)
    (h : p.u_min ≤ p.u_max) :
    0 ≤ defuzzDen p μ ∧
    p.u_min * defuzzDen p μ ≤ defuzzNum p μ ∧
    defuzzNum p μ ≤ p.u_max * defuzzDen p μ := by
  have hmem := linspace_mem p.u_min p.u_max p.resolution h
  unfold defuzzDen defuzzNum
  rw [foldl_add_eq, foldl_add_eq, zero_add, zero_add]
  refine ⟨List.sum_nonneg ?_, ?_, ?_⟩
  · intro x hx
    obtain ⟨u, _, rfl⟩ := List.mem_map.mp hx
    exact muAt_nonneg p μ u
  · rw [← List.sum_map_mul_left]
    refine List.sum_le_sum ?_
    intro u hu
    exact mul_le_mul_of_nonneg_right (hmem u hu).1 (muAt_nonneg p μ u)
  · rw [← List.sum_map_mul_left]
    refine List.sum_le_sum ?_
    intro u hu
    exact mul_le_mul_of_nonneg_right (hmem u hu).2 (muAt_nonneg p μ u)

/-- C8 amended: for every configuration with `u_min ≤ u_max`, every state
and every input, `FuzzyCruiseController.step` returns either the fallback
`0` (when no rule fired) or a value within `[u_min, u_max]`; in
particular the output always lies in `[u_min, u_max]` whenever
`u_min ≤ 0 ≤ u_max`, as in the default configuration. -/
theorem fuzzy_output_range_amended (p : FuzzyParams) (ep e dt : ℚ)
    (h : p.u_min ≤ p.u_max) :
    (fuzzyStep p ep e dt).1 = 0 ∨
    (p.u_min ≤ (fuzzyStep p ep e dt).1 ∧ (fuzzyStep p ep e dt).1 ≤ p.u_max) := by
  by_cases hden : defuzzDen p (muOut p e (fuzzyDe ep e dt)) = 0
  · left
    rw [fuzzyStep_of_den_zero p ep e dt hden]
  · right
    have hb := defuzz_num_den_bounds p (muOut p e (fuzzyDe ep e dt)) h
    have hpos : 0 < defuzzDen p (muOut p e (fuzzyDe ep e dt)) :=
      lt_of_le_of_ne hb.1 (Ne.symm hden)
    have hstep : fuzzyStep p ep e dt =
        (defuzzNum p (muOut p e (fuzzyDe ep e dt)) /
         defuzzDen p (muOut p e (fuzzyDe ep e dt)), e) := by
      show (if defuzzDen p (muOut p e (fuzzyDe ep e dt)) = 0
            then ((0:ℚ), e)
            else (defuzzNum p (muOut p e (fuzzyDe ep e dt)) /
                  defuzzDen p (muOut p e (fuzzyDe ep e dt)), e)) = _
      rw [if_neg hden]
    rw [hstep]
    constructor
    · rw [le_div_iff₀ hpos]
      exact hb.2.1
    · rw [div_le_iff₀ hpos]
      exact hb.2.2

/-- Witness for C8's amended statement at the default configuration. -/
theorem fuzzy_output_range_amended_witness :
    defaultFuzzyParams.u_min ≤ defaultFuzzyParams.u_max ∧
    ((fuzzyStep defaultFuzzyParams 0 1 1).1 = 0 ∨
     (defaultFuzzyParams.u_min ≤ (fuzzyStep defaultFuzzyParams 0 1 1).1 ∧
      (fuzzyStep defaultFuzzyParams 0 1 1).1 ≤ defaultFuzzyParams.u_max)) :=
  ⟨by norm_num [defaultFuzzyParams],
   fuzzy_output_range_amended defaultFuzzyParams 0 1 1
     (by norm_num [defaultFuzzyParams])⟩

/-- C6: `simulate` is deterministic and fully determined by the plant
parameters, the controller (its parameters and reset behaviour), the
setpoint, horizon and step size: the incoming plant speed and controller
state are irrelevant because `simulate` resets both objects first, so two
calls whose controllers reset to the same state return identical output
sequences element-for-element. -/
theorem simulate_deterministic :
    (∀ (p : VehicleParams) (C : Controller) (cs1 cs2 : C.St)
       (v1 v2 v_set t_sim dt : ℚ),
       C.reset cs1 = C.reset cs2 →
       simulate p C cs1 v1 v_set t_sim dt = simulate p C cs2 v2 v_set t_sim dt) ∧
    (∀ (pp : PIDParams) (s1 s2 : PIDState),
       (pidController pp).reset s1 = (pidController pp).reset s2) ∧
    (∀ (fp : FuzzyParams) (s1 s2 : ℚ),
       (fuzzyController fp).reset s1 = (fuzzyController fp).reset s2) := by
  refine ⟨?_, fun _ _ _ => rfl, fun _ _ _ => rfl⟩
  intro p C cs1 cs2 v1 v2 v_set t_sim dt h
  simp only [simulate, h]

/-- Witness for C6: a reused PID controller with stale state `(3, 4)` and
plant speed `5` gives the same simulation output as fresh zero states. -/
theorem simulate_deterministic_witness :
    (pidController defaultPIDParams).reset { integral := 3, e_prev := 4 } =
      (pidController defaultPIDParams).reset { integral := 0, e_prev := 0 } ∧
    simulate ferrariParams (pidController defaultPIDParams)
        { integral := 3, e_prev := 4 } 5 1 (1/10) (1/20) =
      simulate ferrariParams (pidController defaultPIDParams)
        { integral := 0, e_prev := 0 } 0 1 (1/10) (1/20) :=
  ⟨rfl,
   simulate_deterministic.1 ferrariParams (pidController defaultPIDParams)
     { integral := 3, e_prev := 4 } { integral := 0, e_prev := 0 } 5 0 1 (1/10) (1/20) rfl⟩

/-- C10: for `0 ≤ t_sim < dt` the step count `int(t_sim/dt)` is zero, so
`simulate` still resets the plant (to speed `0`) and the controller but
runs no loop iteration and returns four empty sequences. -/
theorem simulate_empty_when_horizon_short (p : VehicleParams) (C : Controller)
    (cs : C.St) (vInit v_set t_sim dt : ℚ)
    (h0 : 0 ≤ t_sim) (h1 : t_sim < dt) (h2 : 0 < dt) :
    simulate p C cs vInit v_set t_sim dt = ([], [], [], [], 0, C.reset cs) := by
  have hq0 : 0 ≤ t_sim / dt := div_nonneg h0 h2.le
  have hq1 : t_sim / dt < 1 := (div_lt_one h2).mpr h1
  have hfl : ⌊t_sim / dt⌋ = 0 := Int.floor_eq_zero_iff.mpr (Set.mem_Ico.mpr ⟨hq0, hq1⟩)
  simp only [simulate, hfl]
  rfl

/-- Witness for C10 with `t_sim = 1/40 < dt = 1/20`. -/
theorem simulate_empty_when_horizon_short_witness :
    (0:ℚ) ≤ 1/40 ∧ (1/40:ℚ) < 1/20 ∧ (0:ℚ) < 1/20 ∧
    simulate ferrariParams (pidController defaultPIDParams)
        { integral := 0, e_prev := 0 } 0 1 (1/40) (1/20) =
      ([], [], [], [], 0,
       (pidController defaultPIDParams).reset { integral := 0, e_prev := 0 }) :=
  ⟨by norm_num, by norm_num, by norm_num,
   simulate_empty_when_horizon_short ferrariParams (pidController defaultPIDParams)
     { integral := 0, e_prev := 0 } 0 1 (1/40) (1/20)
     (by norm_num) (by norm_num) (by norm_num)⟩

theorem carStep_snd_nonneg (p : VehicleParams) (v u dt : ℚ) :
    0 ≤ (carStep p v u dt).2 := by
  unfold carStep
  dsimp only
  split_ifs with h
  · exact le_rfl
  · exact not_lt.mp h

/-- Counterexample to C7 as stated: `reset(-1)` stores the negative speed
`-1`, so the invariant fails over arbitrary reset arguments. -/
theorem plant_speed_nonneg_counterexample :
    ¬ (0 ≤ runOps ferrariParams [PlantOp.reset (-1)]) := by
  norm_num [runOps, applyOp, carReset, List.foldl_cons, List.foldl_nil]

/-- C7 amended: the stored plant speed is nonnegative after every
operation of any call sequence in which every `reset` is given a
nonnegative initial speed; `step` needs no restriction because it floors
the integrated speed at `0` on every call. -/
theorem plant_speed_nonneg_amended (p : VehicleParams) (ops : List PlantOp)
    (h : ∀ v0, PlantOp.reset v0 ∈ ops → 0 ≤ v0) :
    0 ≤ runOps p ops := by
  unfold runOps
  have key : ∀ (l : List PlantOp), (∀ v0, PlantOp.reset v0 ∈ l → 0 ≤ v0) →
      ∀ v : ℚ, 0 ≤ v → 0 ≤ l.foldl (applyOp p) v := by
    intro l
    induction l with
    | nil => intro _ v hv; exact hv
    | cons op rest ih =>
      intro hres v hv
      rw [List.foldl_cons]
      refine ih (fun v0 hm => hres v0 (List.mem_cons_of_mem op hm)) _ ?_
      cases op with
      | reset v0 => exact hres v0 (List.mem_cons_self _ _)
      | step u dt => exact carStep_snd_nonneg p v u dt
  exact key ops h 0 le_rfl

/-- Witness for C7's amended statement on `[reset(5), step(1, 1/20)]`. -/
theorem plant_speed_nonneg_amended_witness :
    (∀ v0, PlantOp.reset v0 ∈ [PlantOp.reset 5, PlantOp.step 1 (1/20)] → 0 ≤ v0) ∧
    0 ≤ runOps ferrariParams [PlantOp.reset 5, PlantOp.step 1 (1/20)] := by
  have hres : ∀ v0, PlantOp.reset v0 ∈ [PlantOp.reset 5, PlantOp.step 1 (1/20)] →
      0 ≤ v0 := by
    intro v0 hm
    rcases List.mem_cons.mp hm with h1 | h1
    · injection h1 with h2
      subst h2
      norm_num
    · rcases List.mem_cons.mp h1 with h2 | h2
      · cases h2
      · exact absurd h2 (List.not_mem_nil _)
  exact ⟨hres, plant_speed_nonneg_amended ferrariParams _ hres⟩

/-- C9: `create_vehicle` is total over arbitrary name strings: the result
is always one of the three presets; the lowercased aliases "ferrari",
"motorcycle"/"motocykl" and "tank"/"czolg"/"czołg" select their preset,
and every other name falls back to the Ferrari preset. -/
theorem create_vehicle_total (s : String) :
    (create_vehicle s = ferrariParams ∨ create_vehicle s = motorcycleParams ∨
     create_vehicle s = tankParams) ∧
    (pyLower s = "ferrari" → create_vehicle s = ferrariParams) ∧
    ((pyLower s = "motorcycle" ∨ pyLower s = "motocykl") →
      create_vehicle s = motorcycleParams) ∧
    ((pyLower s = "tank" ∨ pyLower s = "czolg" ∨ pyLower s = "czołg") →
      create_vehicle s = tankParams) ∧
    (pyLower s ≠ "ferrari" →
     ¬(pyLower s = "motorcycle" ∨ pyLower s = "motocykl") →
     ¬(pyLower s = "tank" ∨ pyLower s = "czolg" ∨ pyLower s = "czołg") →
     create_vehicle s = ferrariParams) := by
  simp only [create_vehicle]
  split_ifs with h1 h2 h3
  · refine ⟨Or.inl rfl, fun _ => rfl, fun hm => ?_, fun hm => ?_,
      fun hne _ _ => absurd h1 hne⟩
    · rw [h1] at hm
      rcases hm with hm | hm <;> exact absurd hm (by decide)
    · rw [h1] at hm
      rcases hm with hm | hm | hm <;> exact absurd hm (by decide)
  · refine ⟨Or.inr (Or.inl rfl), fun hm => absurd hm h1, fun _ => rfl,
      fun hm => ?_, fun _ hn _ => absurd h2 hn⟩
    rcases h2 with h2 | h2 <;> rw [h2] at hm <;>
      rcases hm with hm | hm | hm <;> exact absurd hm (by decide)
  · exact ⟨Or.inr (Or.inr rfl), fun hm => absurd hm h1, fun hm => absurd hm h2,
      fun _ => rfl, fun _ _ hn => absurd h3 hn⟩
  · exact ⟨Or.inl rfl, fun hm => absurd hm h1, fun hm => absurd hm h2,
      fun hm => absurd hm h3, fun _ _ _ => rfl⟩

/-- Witness for C9: "CZOŁG" lowercases to "czołg" and yields the tank
preset via the theorem's tank clause. -/
theorem create_vehicle_total_witness :
    pyLower ("CZOŁG") = "czołg" ∧ create_vehicle ("CZOŁG") = tankParams :=
  ⟨rfl, (create_vehicle_total ("CZOŁG")).2.2.2.1 (Or.inr (Or.inr rfl))⟩

theorem linspace_length (a b : ℚ) (n : ℕ) : (linspace a b n).length = n := by
  unfold linspace
  split_ifs with h
  · simp
  · rw [List.length_map, List.length_range]

theorem sim_loop_eq (p : VehicleParams) (C : Controller) (cs : C.St)
    (v_set dt : ℚ) :
    ∀ n : ℕ,
      (List.range n).foldl
        (fun (st : (ℚ × C.St) × List ℚ × List ℚ) _ =>
          (((carStep p st.1.1 (C.step st.1.2 (v_set - st.1.1) dt).1 dt).2,
            (C.step st.1.2 (v_set - st.1.1) dt).2),
           st.2.1 ++ [(carStep p st.1.1 (C.step st.1.2 (v_set - st.1.1) dt).1 dt).1],
           st.2.2 ++ [(C.step st.1.2 (v_set - st.1.1) dt).1]))
        ((carReset 0, C.reset cs), [], []) =
      (simState p C cs v_set dt n,
       (List.range n).map (fun i => (simState p C cs v_set dt (i+1)).1),
       (List.range n).map (fun i => simU p C cs v_set dt i)) := by
  intro n
  induction n with
  | zero => rfl
  | succ n ih =>
    rw [List.range_succ, List.foldl_append, ih, List.map_append, List.map_append]
    rfl

/-- C3: `simulate` resets the plant to speed `0` and the controller, runs
exactly `floor(t_sim/dt)` loop steps, and on step `i` reads the plant
speed, computes the error `v_set - v`, feeds it to the controller, steps
the plant with the resulting control, and records the new speed, the
control and the setpoint; all four returned sequences have length
`floor(t_sim/dt)`.  The recorded sequences are exactly the `simState`
recurrence, and the final object states are `simState` after the last
step. -/
theorem simulate_follows_spec (p : VehicleParams) (C : Controller) (cs : C.St)
    (vInit v_set t_sim dt : ℚ) (h0 : 0 ≤ t_sim) (hdt : 0 < dt) :
    simulate p C cs vInit v_set t_sim dt =
      (linspace 0 t_sim (⌊t_sim / dt⌋).toNat,
       (List.range (⌊t_sim / dt⌋).toNat).map
         (fun i => (simState p C cs v_set dt (i+1)).1),
       (List.range (⌊t_sim / dt⌋).toNat).map (fun i => simU p C cs v_set dt i),
       List.replicate (⌊t_sim / dt⌋).toNat v_set,
       simState p C cs v_set dt (⌊t_sim / dt⌋).toNat) ∧
    ((simulate p C cs vInit v_set t_sim dt).1.length : ℤ) = ⌊t_sim / dt⌋ ∧
    ((simulate p C cs vInit v_set t_sim dt).2.1.length : ℤ) = ⌊t_sim / dt⌋ ∧
    ((simulate p C cs vInit v_set t_sim dt).2.2.1.length : ℤ) = ⌊t_sim / dt⌋ ∧
    ((simulate p C cs vInit v_set t_sim dt).2.2.2.1.length : ℤ) = ⌊t_sim / dt⌋ := by
  have hfl0 : 0 ≤ ⌊t_sim / dt⌋ := Int.floor_nonneg.mpr (div_nonneg h0 hdt.le)
  have hmain : simulate p C cs vInit v_set t_sim dt =
      (linspace 0 t_sim (⌊t_sim / dt⌋).toNat,
       (List.range (⌊t_sim / dt⌋).toNat).map
         (fun i => (simState p C cs v_set dt (i+1)).1),
       (List.range (⌊t_sim / dt⌋).toNat).map (fun i => simU p C cs v_set dt i),
       List.replicate (⌊t_sim / dt⌋).toNat v_set,
       simState p C cs v_set dt (⌊t_sim / dt⌋).toNat) := by
    simp only [simulate]
    rw [sim_loop_eq p C cs v_set dt ((⌊t_sim / dt⌋).toNat)]
  refine ⟨hmain, ?_, ?_, ?_, ?_⟩ <;>
    rw [hmain] <;>
    simp only [linspace_length, List.length_map, List.length_range,
      List.length_replicate] <;>
    exact Int.toNat_of_nonneg hfl0

/-- Witness for C3: the Ferrari plant under the default PID controller,
setpoint `1`, horizon `1/10`, step `1/20`. -/
theorem simulate_follows_spec_witness :
    (0:ℚ) ≤ 1/10 ∧ (0:ℚ) < 1/20 ∧
    (simulate ferrariParams (pidController defaultPIDParams)
        { integral := 0, e_prev := 0 } 0 1 (1/10) (1/20) =
      (linspace 0 (1/10) (⌊(1/10 : ℚ) / (1/20)⌋).toNat,
       (List.range (⌊(1/10 : ℚ) / (1/20)⌋).toNat).map
         (fun i => (simState ferrariParams (pidController defaultPIDParams)
           { integral := 0, e_prev := 0 } 1 (1/20) (i+1)).1),
       (List.range (⌊(1/10 : ℚ) / (1/20)⌋).toNat).map
         (fun i => simU ferrariParams (pidController defaultPIDParams)
           { integral := 0, e_prev := 0 } 1 (1/20) i),
       List.replicate (⌊(1/10 : ℚ) / (1/20)⌋).toNat 1,
       simState ferrariParams (pidController defaultPIDParams)
         { integral := 0, e_prev := 0 } 1 (1/20) (⌊(1/10 : ℚ) / (1/20)⌋).toNat) ∧
     ((simulate ferrariParams (pidController defaultPIDParams)
        { integral := 0, e_prev := 0 } 0 1 (1/10) (1/20)).1.length : ℤ) =
       ⌊(1/10 : ℚ) / (1/20)⌋ ∧
     ((simulate ferrariParams (pidController defaultPIDParams)
        { integral := 0, e_prev := 0 } 0 1 (1/10) (1/20)).2.1.length : ℤ) =
       ⌊(1/10 : ℚ) / (1/20)⌋ ∧
     ((simulate ferrariParams (pidController defaultPIDParams)
        { integral := 0, e_prev := 0 } 0 1 (1/10) (1/20)).2.2.1.length : ℤ) =
       ⌊(1/10 : ℚ) / (1/20)⌋ ∧
     ((simulate ferrariParams (pidController defaultPIDParams)
        { integral := 0, e_prev := 0 } 0 1 (1/10) (1/20)).2.2.2.1.length : ℤ) =
       ⌊(1/10 : ℚ) / (1/20)⌋) :=
  ⟨by norm_num, by norm_num,
   simulate_follows_spec ferrariParams (pidController defaultPIDParams)
     { integral := 0, e_prev := 0 } 0 1 (1/10) (1/20) (by norm_num) (by norm_num)⟩

end Tempomat
